import Mathlib

/-!
Verification of the cabal read-processing pipeline (Rust sources) against its
natural-language specification.  The Rust code is shallowly embedded: machine
integers (`u8`, `u32`, `usize`) become `Nat` (all operations used here never
overflow their Rust widths on the values involved), `f64` values flowing
through order comparisons become `Rat`, fallible code (`unwrap`, `panic!`)
becomes `Option`, and the imperative loops become structural recursions or
folds over explicit state.
-/

namespace Cabal

/-! ## Base algebra: `src/rust_cmd/src/alignment/fasta_bit_encoding.rs`

`FastaBase` wraps a `u8`; we model the payload as a `Nat` (all constants fit
in a nibble plus the 0x10 gap bit, and `&&&` / `^^^` never overflow). -/

/-- `pub struct FastaBase(u8)` from fasta_bit_encoding.rs. -/
structure FastaBase where
  val : Nat
deriving DecidableEq, Repr

/-- `impl PartialEq for FastaBase`: `self.0 & other.0 > 0`. -/
def FastaBase.eq (a b : FastaBase) : Bool :=
  a.val &&& b.val > 0

/-- `FastaBase::identity`: `self.0 ^ other.0 == 0`. -/
def FastaBase.identity (a b : FastaBase) : Bool :=
  a.val ^^^ b.val == 0

/-- `FastaBase::strict_identity`: `self.0 == other.0`. -/
def FastaBase.strict_identity (a b : FastaBase) : Bool :=
  a.val == b.val

/-- `const fn add_two_string_encodings(a, b) -> FastaBase { FastaBase(a.0 + b.0) }` -/
def add_two_string_encodings (a b : FastaBase) : FastaBase :=
  ⟨a.val + b.val⟩

def FASTA_UNSET : FastaBase := ⟨0x10⟩
def FASTA_N : FastaBase := ⟨0xF⟩
def FASTA_A : FastaBase := ⟨0x1⟩
def FASTA_C : FastaBase := ⟨0x2⟩
def FASTA_G : FastaBase := ⟨0x4⟩
def FASTA_T : FastaBase := ⟨0x8⟩
def FASTA_R : FastaBase := add_two_string_encodings FASTA_A FASTA_G
def FASTA_Y : FastaBase := add_two_string_encodings FASTA_C FASTA_T
def FASTA_K : FastaBase := add_two_string_encodings FASTA_G FASTA_T
def FASTA_M : FastaBase := add_two_string_encodings FASTA_A FASTA_C
def FASTA_S : FastaBase := add_two_string_encodings FASTA_C FASTA_G
def FASTA_W : FastaBase := add_two_string_encodings FASTA_A FASTA_T
def FASTA_B : FastaBase := add_two_string_encodings FASTA_C (add_two_string_encodings FASTA_G FASTA_T)
def FASTA_D : FastaBase := add_two_string_encodings FASTA_A (add_two_string_encodings FASTA_G FASTA_T)
def FASTA_H : FastaBase := add_two_string_encodings FASTA_A (add_two_string_encodings FASTA_C FASTA_T)
def FASTA_V : FastaBase := add_two_string_encodings FASTA_A (add_two_string_encodings FASTA_C FASTA_G)

/-- `encoding_to_u8(base) -> u8`; the catch-all arm panics, which we model as
`none`.  The match-guard cascade compares the raw payload against each
constant in source order. -/
def encoding_to_u8 (base : FastaBase) : Option Nat :=
  if base.val = FASTA_UNSET.val then some 45      -- b'-'
  else if base.val = FASTA_A.val then some 65     -- b'A'
  else if base.val = FASTA_C.val then some 67     -- b'C'
  else if base.val = FASTA_G.val then some 71     -- b'G'
  else if base.val = FASTA_T.val then some 84     -- b'T'
  else if base.val = FASTA_R.val then some 82     -- b'R'
  else if base.val = FASTA_Y.val then some 89     -- b'Y'
  else if base.val = FASTA_K.val then some 75     -- b'K'
  else if base.val = FASTA_M.val then some 77     -- b'M'
  else if base.val = FASTA_S.val then some 83     -- b'S'
  else if base.val = FASTA_W.val then some 87     -- b'W'
  else if base.val = FASTA_B.val then some 66     -- b'B'
  else if base.val = FASTA_D.val then some 68     -- b'D'
  else if base.val = FASTA_H.val then some 72     -- b'H'
  else if base.val = FASTA_V.val then some 86     -- b'V'
  else if base.val = FASTA_N.val then some 78     -- b'N'
  else none

/-- `u8_to_encoding(base) -> Option<FastaBase>`: the byte-to-base decoder,
case-insensitive, `None` outside the alphabet. -/
def u8_to_encoding (base : Nat) : Option FastaBase :=
  if base = 45 then some FASTA_UNSET              -- b'-'
  else if base = 65 ∨ base = 97 then some FASTA_A  -- 'A' | 'a'
  else if base = 67 ∨ base = 99 then some FASTA_C  -- 'C' | 'c'
  else if base = 71 ∨ base = 103 then some FASTA_G -- 'G' | 'g'
  else if base = 84 ∨ base = 116 then some FASTA_T -- 'T' | 't'
  else if base = 82 ∨ base = 114 then some FASTA_R -- 'R' | 'r'
  else if base = 89 ∨ base = 121 then some FASTA_Y -- 'Y' | 'y'
  else if base = 75 ∨ base = 107 then some FASTA_K -- 'K' | 'k'
  else if base = 77 ∨ base = 109 then some FASTA_M -- 'M' | 'm'
  else if base = 83 ∨ base = 115 then some FASTA_S -- 'S' | 's'
  else if base = 87 ∨ base = 119 then some FASTA_W -- 'W' | 'w'
  else if base = 66 ∨ base = 98 then some FASTA_B  -- 'B' | 'b'
  else if base = 68 ∨ base = 100 then some FASTA_D -- 'D' | 'd'
  else if base = 72 ∨ base = 104 then some FASTA_H -- 'H' | 'h'
  else if base = 86 ∨ base = 118 then some FASTA_V -- 'V' | 'v'
  else if base = 78 ∨ base = 110 then some FASTA_N -- 'N' | 'n'
  else none

/-- ASCII alphabet of the encoder, upper and lower case, gap included. -/
def fastaAlphabet : List Nat :=
  [65, 67, 71, 84, 82, 89, 75, 77, 83, 87, 66, 68, 72, 86, 78, 45,
   97, 99, 103, 116, 114, 121, 107, 109, 115, 119, 98, 100, 104, 118, 110]

/-- Uppercasing of an ASCII byte (spec-side notion used by the round-trip
claim). -/
def upperByte (c : Nat) : Nat :=
  if 97 ≤ c ∧ c ≤ 122 then c - 32 else c

end Cabal

namespace Cabal

/-! ## Claim C1: degeneracy-aware equality -/

/-- C1: the `PartialEq` operator on `FastaBase` returns true iff the bitwise
AND of the two encodings is non-zero; consequently A == R, N == each of
A, C, G, T, and the gap value 0x10 is equal to no canonical base. -/
theorem c1_partial_eq_iff_and_nonzero :
    (∀ a b : FastaBase, FastaBase.eq a b = true ↔ a.val &&& b.val ≠ 0) ∧
    FastaBase.eq FASTA_A FASTA_R = true ∧
    FastaBase.eq FASTA_N FASTA_A = true ∧
    FastaBase.eq FASTA_N FASTA_C = true ∧
    FastaBase.eq FASTA_N FASTA_G = true ∧
    FastaBase.eq FASTA_N FASTA_T = true ∧
    FastaBase.eq FASTA_UNSET FASTA_A = false ∧
    FastaBase.eq FASTA_UNSET FASTA_C = false ∧
    FastaBase.eq FASTA_UNSET FASTA_G = false ∧
    FastaBase.eq FASTA_UNSET FASTA_T = false := by
  refine ⟨fun a b => ?_, by decide, by decide, by decide, by decide, by decide,
    by decide, by decide, by decide, by decide⟩
  simp [FastaBase.eq, Nat.pos_iff_ne_zero]

/-! ## Claim C2: `identity` is strict, not degeneracy-aware.

The spec claims `identity(a,b)` is `(a & b) != 0`; the source has
`self.0 ^ other.0 == 0`, i.e. exact equality of the raw encodings, and the
code's own test `test_identity` asserts `!FASTA_N.identity(&FASTA_A)`. -/

/-- C2 counterexample: A is contained in N (their AND is non-zero), yet
`identity` returns `false` on the pair, refuting the claimed
"true iff bitwise AND non-zero" characterization. -/
theorem c2_identity_not_and_based :
    FastaBase.identity FASTA_N FASTA_A = false ∧
    FASTA_N.val &&& FASTA_A.val ≠ 0 := by
  decide

/-- C2 (amended): `identity(a, b)` returns true iff the two raw encodings are
identical (their XOR is zero); the degeneracy-aware AND-based comparison is
the `PartialEq` operator, not `identity`. -/
theorem c2_identity_iff_equal :
    ∀ a b : FastaBase, FastaBase.identity a b = true ↔ a.val = b.val := by
  intro a b
  simp only [FastaBase.identity, beq_iff_eq]
  constructor
  · intro h
    exact Nat.xor_eq_zero.mp h
  · intro h
    simp [h]

/-! ## CIGAR tokens and `simplify_cigar_string`
(`src/rust_cmd/src/alignment_functions.rs`, lines 660-720) -/

/-- `AlignmentTag` from alignment_matrix.rs, as used by
`simplify_cigar_string`: run-length tokens over {M, D, I} plus inversion
open/close markers. -/
inductive AlignmentTag where
  | MatchMismatch (size : Nat)
  | Del (size : Nat)
  | Ins (size : Nat)
  | InversionOpen
  | InversionClose
deriving DecidableEq, Repr

/-- One iteration of the `for token in cigar_tokens` loop of
`simplify_cigar_string`: the state is the output vector `new_cigar` plus the
pending `last_token`; a token of the same M/D/I kind as the pending one is
summed into it, any other token flushes the pending one. -/
def simplifyStep (st : List AlignmentTag × Option AlignmentTag) (t : AlignmentTag) :
    List AlignmentTag × Option AlignmentTag :=
  match t, st.2 with
  | .MatchMismatch s, some (.MatchMismatch so) => (st.1, some (.MatchMismatch (s + so)))
  | .MatchMismatch s, some l => (st.1 ++ [l], some (.MatchMismatch s))
  | .MatchMismatch s, none => (st.1, some (.MatchMismatch s))
  | .Del s, some (.Del so) => (st.1, some (.Del (s + so)))
  | .Del s, some l => (st.1 ++ [l], some (.Del s))
  | .Del s, none => (st.1, some (.Del s))
  | .Ins s, some (.Ins so) => (st.1, some (.Ins (s + so)))
  | .Ins s, some l => (st.1 ++ [l], some (.Ins s))
  | .Ins s, none => (st.1, some (.Ins s))
  | .InversionOpen, some l => (st.1 ++ [l], some .InversionOpen)
  | .InversionOpen, none => (st.1, some .InversionOpen)
  | .InversionClose, some l => (st.1 ++ [l], some .InversionClose)
  | .InversionClose, none => (st.1, some .InversionClose)

/-- `simplify_cigar_string`: run the loop, flush the final `last_token`, then
`new_cigar.reverse()`. -/
def simplify_cigar_string (cigar_tokens : List AlignmentTag) : List AlignmentTag :=
  let st := cigar_tokens.foldl simplifyStep ([], none)
  (st.1 ++ st.2.toList).reverse

/-- Combination of two adjacent CIGAR tokens of the same mergeable kind
(M/D/I); inversion markers combine with nothing. -/
def combineTag (a b : AlignmentTag) : Option AlignmentTag :=
  match a, b with
  | .MatchMismatch sa, .MatchMismatch sb => some (.MatchMismatch (sa + sb))
  | .Del sa, .Del sb => some (.Del (sa + sb))
  | .Ins sa, .Ins sb => some (.Ins (sa + sb))
  | _, _ => none

/-- The spec's "CIGAR compressed by merging adjacent operations of the same
kind": adjacent `MatchMismatch`/`Del`/`Ins` runs are summed into one
operation, inversion markers are never merged. -/
def mergeTags : List AlignmentTag → List AlignmentTag
  | [] => []
  | t :: ts =>
    match mergeTags ts with
    | [] => [t]
    | u :: us =>
      match combineTag t u with
      | some c => c :: us
      | none => t :: u :: us

/-- The merge-kind of a token: M, D, I, or the two inversion markers. -/
def tagKind : AlignmentTag → Nat
  | .MatchMismatch _ => 0
  | .Del _ => 1
  | .Ins _ => 2
  | .InversionOpen => 3
  | .InversionClose => 4

theorem mergeTags_cons_eq (t : AlignmentTag) (ts : List AlignmentTag) :
    mergeTags (t :: ts) =
      match mergeTags ts with
      | [] => [t]
      | u :: us =>
        match combineTag t u with
        | some c => c :: us
        | none => t :: u :: us := rfl

theorem combineTag_kind {a b c : AlignmentTag} (h : combineTag a b = some c) :
    tagKind a = tagKind b ∧ tagKind c = tagKind a := by
  cases a <;> cases b <;> simp_all [combineTag, tagKind] <;> subst h <;> rfl

theorem combineTag_kind_le {a b c : AlignmentTag} (h : combineTag a b = some c) :
    tagKind a ≤ 2 := by
  cases a <;> cases b <;> simp_all [combineTag, tagKind]

/-- The head of `mergeTags (t :: ts)` exists and has the same kind as `t`. -/
theorem mergeTags_head_kind (t : AlignmentTag) (ts : List AlignmentTag) :
    ∃ v vs, mergeTags (t :: ts) = v :: vs ∧ tagKind v = tagKind t := by
  rw [mergeTags_cons_eq]
  cases h : mergeTags ts with
  | nil => exact ⟨t, [], rfl, rfl⟩
  | cons u us =>
    cases hc : combineTag t u with
    | none => exact ⟨t, u :: us, by simp [hc], rfl⟩
    | some c => exact ⟨c, us, by simp [hc], (combineTag_kind hc).2⟩

/-- A token that does not combine with the next one passes through the merge
unchanged. -/
theorem mergeTags_cons_of_not_combinable {a t : AlignmentTag} (h : combineTag a t = none)
    (ts : List AlignmentTag) : mergeTags (a :: t :: ts) = a :: mergeTags (t :: ts) := by
  obtain ⟨v, vs, hv, hk⟩ := mergeTags_head_kind t ts
  have hnone : combineTag a v = none := by
    cases hcv : combineTag a v with
    | none => rfl
    | some c =>
      have h1 := (combineTag_kind hcv).1
      rw [hk] at h1
      cases a <;> cases t <;> simp_all [combineTag, tagKind]
  conv_lhs => rw [mergeTags_cons_eq, hv]
  simp [hnone, hv]

/-- Two combinable adjacent tokens may be pre-merged without changing the
result of the merge. -/
theorem mergeTags_absorb {a b c : AlignmentTag} (h : combineTag a b = some c)
    (ts : List AlignmentTag) : mergeTags (a :: b :: ts) = mergeTags (c :: ts) := by
  cases a <;> cases b <;> simp [combineTag] at h
  case MatchMismatch.MatchMismatch sa sb =>
    subst h
    simp only [mergeTags_cons_eq]
    cases hts : mergeTags ts with
    | nil => simp [combineTag]
    | cons w ws => cases w <;> simp [combineTag, Nat.add_assoc]
  case Del.Del sa sb =>
    subst h
    simp only [mergeTags_cons_eq]
    cases hts : mergeTags ts with
    | nil => simp [combineTag]
    | cons w ws => cases w <;> simp [combineTag, Nat.add_assoc]
  case Ins.Ins sa sb =>
    subst h
    simp only [mergeTags_cons_eq]
    cases hts : mergeTags ts with
    | nil => simp [combineTag]
    | cons w ws => cases w <;> simp [combineTag, Nat.add_assoc]

/-- Loop invariant of `simplify_cigar_string`: flushing the fold state yields
the already-emitted prefix followed by the merge of the pending token and the
remaining input. -/
theorem simplify_foldl_eq_merge (l : List AlignmentTag) :
    ∀ (nc : List AlignmentTag) (last : Option AlignmentTag),
      (l.foldl simplifyStep (nc, last)).1 ++ (l.foldl simplifyStep (nc, last)).2.toList =
        nc ++ mergeTags (last.toList ++ l) := by
  induction l with
  | nil =>
    intro nc last
    cases last with
    | none => simp [mergeTags]
    | some u => simp [mergeTags]
  | cons t rest ih =>
    intro nc last
    cases last with
    | none =>
      have hstep : simplifyStep (nc, none) t = (nc, some t) := by
        cases t <;> rfl
      rw [List.foldl_cons, hstep, ih]
      simp
    | some u =>
      cases hc : combineTag u t with
      | some c =>
        have hstep : simplifyStep (nc, some u) t = (nc, some c) := by
          cases u <;> cases t <;> simp_all [combineTag, simplifyStep, Nat.add_comm]
        rw [List.foldl_cons, hstep, ih]
        simp only [Option.toList_some, List.singleton_append]
        rw [mergeTags_absorb hc]
      | none =>
        have hstep : simplifyStep (nc, some u) t = (nc ++ [u], some t) := by
          cases u <;> cases t <;> simp_all [combineTag, simplifyStep]
        rw [List.foldl_cons, hstep, ih]
        simp only [Option.toList_some, List.singleton_append]
        rw [mergeTags_cons_of_not_combinable hc]
        simp

/-- `simplify_cigar_string` computes the reverse of the run-length merge of
its input. -/
theorem simplify_eq_reverse_merge (l : List AlignmentTag) :
    simplify_cigar_string l = (mergeTags l).reverse := by
  show ((l.foldl simplifyStep ([], none)).1 ++
      (l.foldl simplifyStep ([], none)).2.toList).reverse = (mergeTags l).reverse
  rw [simplify_foldl_eq_merge l [] none]
  simp

/-- Number of occurrences of a token in a token list. -/
def countTag (t : AlignmentTag) : List AlignmentTag → Nat
  | [] => 0
  | x :: xs => (if x = t then 1 else 0) + countTag t xs

theorem countTag_append (t : AlignmentTag) (l1 l2 : List AlignmentTag) :
    countTag t (l1 ++ l2) = countTag t l1 + countTag t l2 := by
  induction l1 with
  | nil => simp [countTag]
  | cons x xs ih => simp [countTag, ih]; omega

theorem countTag_reverse (t : AlignmentTag) (l : List AlignmentTag) :
    countTag t l.reverse = countTag t l := by
  induction l with
  | nil => rfl
  | cons x xs ih =>
    rw [List.reverse_cons, countTag_append]
    simp [countTag, ih]
    omega

/-- Merging never touches inversion markers: their count is preserved. -/
theorem mergeTags_count_inversion (l : List AlignmentTag)
    (m : AlignmentTag) (hm : tagKind m = 3 ∨ tagKind m = 4) :
    countTag m (mergeTags l) = countTag m l := by
  induction l with
  | nil => rfl
  | cons t ts ih =>
    cases hts : mergeTags ts with
    | nil =>
      have h1 : mergeTags (t :: ts) = [t] := by rw [mergeTags_cons_eq, hts]
      have h0 : countTag m ts = 0 := by rw [← ih, hts]; rfl
      rw [h1]
      simp [countTag, h0]
    | cons u us =>
      have hcount : countTag m (u :: us) = countTag m ts := by rw [← hts]; exact ih
      cases hc : combineTag t u with
      | none =>
        have h1 : mergeTags (t :: ts) = t :: u :: us := by
          rw [mergeTags_cons_eq, hts]
          show (match combineTag t u with
                | some x => x :: us
                | none => t :: u :: us) = t :: u :: us
          rw [hc]
        rw [h1]
        rw [show countTag m (t :: u :: us) = (if t = m then 1 else 0) + countTag m (u :: us)
          from rfl]
        rw [hcount]
        rfl
      | some c =>
        have h1 : mergeTags (t :: ts) = c :: us := by
          rw [mergeTags_cons_eq, hts]
          show (match combineTag t u with
                | some x => x :: us
                | none => t :: u :: us) = c :: us
          rw [hc]
        rw [h1]
        obtain ⟨hk1, hk2⟩ := combineTag_kind hc
        have hkt : tagKind t ≤ 2 := combineTag_kind_le hc
        have hmc : ¬ (c = m) := by
          intro h; subst h
          have h2 : tagKind c ≤ 2 := by rw [hk2]; exact hkt
          rcases hm with h3 | h3 <;> omega
        have hmt : ¬ (t = m) := by
          intro h; subst h
          rcases hm with h3 | h3 <;> omega
        have hmu : ¬ (u = m) := by
          intro h; subst h
          have h2 : tagKind u ≤ 2 := by rw [← hk1]; exact hkt
          rcases hm with h3 | h3 <;> omega
        rw [show countTag m (c :: us) = (if c = m then 1 else 0) + countTag m us from rfl]
        rw [show countTag m (t :: ts) = (if t = m then 1 else 0) + countTag m ts from rfl]
        rw [show countTag m (u :: us) = (if u = m then 1 else 0) + countTag m us from rfl] at hcount
        simp [hmc, hmt, hmu] at hcount ⊢
        omega

/-! ## Claim C4: CIGAR normalization merges adjacent same-kind operations -/

/-- C4 counterexample: the claim says `simplify_cigar_string` produces the
input compressed by merging adjacent same-kind operations, but on the already
fully-merged input `[M1, D1]` the function returns `[D1, M1]`, not the merged
input `[M1, D1]`. -/
theorem c4_simplify_not_identity_on_merged :
    simplify_cigar_string [AlignmentTag.MatchMismatch 1, AlignmentTag.Del 1] =
      [AlignmentTag.Del 1, AlignmentTag.MatchMismatch 1] ∧
    mergeTags [AlignmentTag.MatchMismatch 1, AlignmentTag.Del 1] =
      [AlignmentTag.MatchMismatch 1, AlignmentTag.Del 1] ∧
    simplify_cigar_string [AlignmentTag.MatchMismatch 1, AlignmentTag.Del 1] ≠
      mergeTags [AlignmentTag.MatchMismatch 1, AlignmentTag.Del 1] := by
  refine ⟨rfl, rfl, ?_⟩
  decide

/-- C4 (amended): `simplify_cigar_string` produces the *reverse* of the input
compressed by merging adjacent operations of the same kind (adjacent
MatchMismatch/Del/Ins runs are summed into one operation), and inversion
open/close markers are never merged with any neighboring operation (their
occurrence counts are preserved). -/
theorem c4_simplify_merges_adjacent :
    ∀ l : List AlignmentTag,
      simplify_cigar_string l = (mergeTags l).reverse ∧
      countTag AlignmentTag.InversionOpen (simplify_cigar_string l) =
        countTag AlignmentTag.InversionOpen l ∧
      countTag AlignmentTag.InversionClose (simplify_cigar_string l) =
        countTag AlignmentTag.InversionClose l := by
  intro l
  refine ⟨simplify_eq_reverse_merge l, ?_, ?_⟩
  · rw [simplify_eq_reverse_merge l, countTag_reverse,
      mergeTags_count_inversion l AlignmentTag.InversionOpen (Or.inl rfl)]
  · rw [simplify_eq_reverse_merge l, countTag_reverse,
      mergeTags_count_inversion l AlignmentTag.InversionClose (Or.inr rfl)]

/-! ## Claim C5: the output is the reverse of the run-length-merged input -/

/-- C5: `simplify_cigar_string` returns the reverse of the run-length-merged
input; in particular a forward per-base cigar of 14 matches, 5 deletions and
11 matches simplifies to 11M, 5D, 14M. -/
theorem c5_simplify_reversed :
    (∀ l : List AlignmentTag, simplify_cigar_string l = (mergeTags l).reverse) ∧
    simplify_cigar_string
        (List.replicate 14 (AlignmentTag.MatchMismatch 1) ++
         List.replicate 5 (AlignmentTag.Del 1) ++
         List.replicate 11 (AlignmentTag.MatchMismatch 1)) =
      [AlignmentTag.MatchMismatch 11, AlignmentTag.Del 5, AlignmentTag.MatchMismatch 14] := by
  exact ⟨simplify_eq_reverse_merge, by decide⟩

/-! ## Claim C10: encode/decode round trip -/

/-- C10: for every character of the alphabet {A,C,G,T,R,Y,K,M,S,W,B,D,H,V,N,-}
in either case, decoding the encoded base yields the uppercase character. -/
theorem c10_round_trip :
    ∀ c ∈ fastaAlphabet, (u8_to_encoding c).bind encoding_to_u8 = some (upperByte c) := by
  decide

/-- C10 witness: the round trip at the gap character, 45 = the ASCII
code of the hyphen. -/
theorem c10_round_trip_witness :
    45 ∈ fastaAlphabet ∧ (u8_to_encoding 45).bind encoding_to_u8 = some (upperByte 45) :=
  ⟨by decide, c10_round_trip 45 (by decide)⟩

/-! ## `fast_align_reads` (`src/rust_cmd/src/alignment_functions.rs`, lines 192-244)

Per-read control flow of the `par_bridge().for_each` loop.  The `f64`
quantities (`max_reference_multiplier`, `max_gaps_proportion`, the per-tag gap
proportions) are modelled as `Rat`; all comparisons used by the claims
involve only values exactly representable in `f64`. -/

/-- A read as seen by the loop body: its length and the per-tag gap
proportions computed by `gap_proportion_per_tag` on its extracted tag
buffers. -/
structure ReadInput where
  len : Nat
  gapProps : List Rat
deriving DecidableEq, Repr

/-- Mutable state of `fast_align_reads`: the three counters plus the staged
containers sent to the sharded store (represented by the reads staged). -/
structure AlignLoopState where
  readCount : Nat
  skippedCount : Nat
  gapRejected : Nat
  staged : List ReadInput
deriving DecidableEq, Repr

/-- `gap_proportion.iter().max_by(|a, b| a.total_cmp(b))`: maximum of a list,
`none` on the empty list (where the Rust `.unwrap()` panics). -/
def listMaxRat : List Rat → Option Rat
  | [] => none
  | x :: xs =>
    match listMaxRat xs with
    | none => some x
    | some m => some (max x m)

/-- One iteration of the `fast_align_reads` read loop: skip the read when its
length is not `< max_reference_multiplier * ref_len`; otherwise align, extract
tags, and stage the container when the maximum per-tag gap proportion is
`<= max_gaps_proportion`, else count it as gap-rejected.  `none` models the
panic of `.unwrap()` on an empty gap-proportion list. -/
def fastAlignStep (max_reference_multiplier max_gaps_proportion : Rat) (refLen : Nat)
    (s : AlignLoopState) (r : ReadInput) : Option AlignLoopState :=
  if (r.len : Rat) < max_reference_multiplier * (refLen : Rat) then
    match listMaxRat r.gapProps with
    | none => none
    | some m =>
      if m ≤ max_gaps_proportion then
        some { s with staged := s.staged ++ [r], readCount := s.readCount + 1 }
      else
        some { s with gapRejected := s.gapRejected + 1, readCount := s.readCount + 1 }
  else
    some { s with skippedCount := s.skippedCount + 1, readCount := s.readCount + 1 }

/-- The whole read loop of `fast_align_reads` over a list of reads. -/
def fastAlignLoop (max_reference_multiplier max_gaps_proportion : Rat) (refLen : Nat) :
    AlignLoopState → List ReadInput → Option AlignLoopState
  | s, [] => some s
  | s, r :: rest =>
    match fastAlignStep max_reference_multiplier max_gaps_proportion refLen s r with
    | none => none
    | some s' => fastAlignLoop max_reference_multiplier max_gaps_proportion refLen s' rest

/-- `let final_count = read_count - skipped_count` returned by
`fast_align_reads`. -/
def fastAlignFinalCount (s : AlignLoopState) : Nat :=
  s.readCount - s.skippedCount

/-! ## Claim C6: over-length drop boundary -/

/-- C6 counterexample: a read of length 10 against a reference of length 5
with `max_reference_multiplier = 2` has length *equal* to (not greater than)
the product, yet the code skips it (the guard is `len < mult * ref_len`),
contradicting the claim that every read with length ≤ the product proceeds to
alignment. -/
theorem c6_boundary_read_skipped :
    fastAlignStep 2 (1/10) 5 ⟨0, 0, 0, []⟩ ⟨10, [0]⟩ =
      some ⟨1, 1, 0, []⟩ ∧
    ¬ ((10 : Rat) > 2 * (5 : Rat)) := by
  constructor
  · norm_num [fastAlignStep]
  · norm_num

/-- C6 (amended): in `fast_align_reads`, a read is dropped as over-length
(counted in the skipped counter, never aligned or staged) exactly when its
length is greater than **or equal to** `max_reference_multiplier` times the
reference length; every read whose length is strictly less than that product
proceeds to alignment and tag extraction (ending staged or gap-rejected). -/
theorem c6_overlength_drop :
    ∀ (mult maxGaps : Rat) (refLen : Nat) (s : AlignLoopState) (r : ReadInput),
      (¬ ((r.len : Rat) < mult * (refLen : Rat)) →
        fastAlignStep mult maxGaps refLen s r =
          some { s with skippedCount := s.skippedCount + 1, readCount := s.readCount + 1 }) ∧
      ((r.len : Rat) < mult * (refLen : Rat) →
        ∀ s', fastAlignStep mult maxGaps refLen s r = some s' →
          s'.skippedCount = s.skippedCount ∧
          (s'.staged = s.staged ++ [r] ∨ s'.gapRejected = s.gapRejected + 1)) := by
  intro mult maxGaps refLen s r
  constructor
  · intro h
    simp [fastAlignStep, h]
  · intro h s' hs'
    simp only [fastAlignStep, if_pos h] at hs'
    cases hmax : listMaxRat r.gapProps with
    | none => rw [hmax] at hs'; cases hs'
    | some m =>
      simp only [hmax] at hs'
      by_cases hm : m ≤ maxGaps
      · rw [if_pos hm] at hs'
        cases hs'
        exact ⟨rfl, Or.inl rfl⟩
      · rw [if_neg hm] at hs'
        cases hs'
        exact ⟨rfl, Or.inr rfl⟩

/-- C6 witness: the amended theorem applied at a read of length 11 > 2·5,
which is skipped. -/
theorem c6_overlength_drop_witness :
    fastAlignStep 2 (1/10) 5 ⟨0, 0, 0, []⟩ ⟨11, [0]⟩ = some ⟨1, 1, 0, []⟩ := by
  have h := (c6_overlength_drop 2 (1/10) 5 ⟨0, 0, 0, []⟩ ⟨11, [0]⟩).1 (by norm_num)
  exact h

/-! ## Claim C7: gap-proportion rejection -/

/-- C7: for every read that enters alignment (length below the over-length
bound), if the maximum per-tag gap proportion is strictly greater than
`max_gaps_proportion` the read is not staged and the `gap_rejected` counter is
incremented by one; if it is ≤ the bound, the read is staged as a
container. -/
theorem c7_gap_rejection :
    ∀ (mult maxGaps : Rat) (refLen : Nat) (s : AlignLoopState) (r : ReadInput) (m : Rat),
      (r.len : Rat) < mult * (refLen : Rat) →
      listMaxRat r.gapProps = some m →
      ((maxGaps < m →
          fastAlignStep mult maxGaps refLen s r =
            some { s with gapRejected := s.gapRejected + 1, readCount := s.readCount + 1 }) ∧
       (m ≤ maxGaps →
          fastAlignStep mult maxGaps refLen s r =
            some { s with staged := s.staged ++ [r], readCount := s.readCount + 1 })) := by
  intro mult maxGaps refLen s r m hlen hmax
  constructor
  · intro hgt
    simp [fastAlignStep, if_pos hlen, hmax, not_le.mpr hgt]
  · intro hle
    simp [fastAlignStep, if_pos hlen, hmax, hle]

/-- C7 witness: a read with gap proportion 1/4 against `max_gaps = 1/10` is
gap-rejected. -/
theorem c7_gap_rejection_witness :
    fastAlignStep 2 (1/10) 5 ⟨0, 0, 0, []⟩ ⟨3, [1/4]⟩ = some ⟨1, 0, 1, []⟩ := by
  have h := (c7_gap_rejection 2 (1/10) 5 ⟨0, 0, 0, []⟩ ⟨3, [1/4]⟩ (1/4)
    (by norm_num) rfl).1 (by norm_num)
  exact h

/-! ## Sorting read containers and the sort stages
(`src/rust_cmd/src/collapse.rs`) -/

/-- `SortedAlignment` (read_disk_sorter.rs), with the fields used by
`fast_align_reads` and the consensus builder. -/
structure SortedAlignment where
  aligned_read : List FastaBase
  aligned_ref : List FastaBase
  ref_name : String
  read_name : String
deriving DecidableEq, Repr

/-- `SortingReadSetContainer`: an alignment plus the canonicalized sorted
keys (a vector, pushed at the back) and the pending unsorted keys (a
`VecDeque`, popped at the front). -/
structure SortingReadSetContainer where
  ordered_sorting_keys : List (Char × List FastaBase)
  ordered_unsorted_keys : List (Char × List FastaBase)
  aligned_read : SortedAlignment
deriving DecidableEq, Repr

/-- Outcome of one container in `sort_known_level`'s match over
`(hits.len(), distance)`. -/
inductive KnownStepOutcome where
  | dropped
  | collidedDropped
  | sent (c : SortingReadSetContainer)
deriving DecidableEq, Repr

/-- The per-container decision of `sort_known_level` (collapse.rs lines
570-596): pop the next unsorted key (`none` models the `.unwrap()` panic on
an empty queue), then match on `(hits.len(), distance)` in source order. -/
def sort_known_step (max_distance : Nat) (c : SortingReadSetContainer)
    (hits : List (List FastaBase)) (distance : Nat) : Option KnownStepOutcome :=
  match c.ordered_unsorted_keys with
  | [] => none
  | next_key :: rest =>
    if hits.length < 1 then some .dropped
    else if hits.length > 1 then some .collidedDropped
    else if distance > max_distance then some .dropped
    else
      match hits with
      | h :: _ =>
        some (.sent
          { c with
            ordered_sorting_keys := c.ordered_sorting_keys ++ [(next_key.1, h)],
            ordered_unsorted_keys := rest })
      | [] => none

/-- Counters of `sort_known_level` plus the containers sent to the output
store. -/
structure KnownLevelState where
  processed : Nat
  droppedReads : Nat
  collidedReads : Nat
  sentReads : Nat
  output : List SortingReadSetContainer
deriving DecidableEq, Repr

/-- One iteration of the `reader.iter_range(..).for_each` loop of
`sort_known_level`: update the counters according to the decision and send
accepted containers to the output store. -/
def sort_known_process (max_distance : Nat) (st : KnownLevelState)
    (c : SortingReadSetContainer) (hits : List (List FastaBase)) (distance : Nat) :
    Option KnownLevelState :=
  match sort_known_step max_distance c hits distance with
  | none => none
  | some .dropped =>
    some { st with processed := st.processed + 1, droppedReads := st.droppedReads + 1 }
  | some .collidedDropped =>
    some { st with
      processed := st.processed + 1,
      droppedReads := st.droppedReads + 1,
      collidedReads := st.collidedReads + 1 }
  | some (.sent c') =>
    some { st with
      processed := st.processed + 1,
      sentReads := st.sentReads + 1,
      output := st.output ++ [c'] }

/-- The whole loop of `sort_known_level` over the input store; each element
pairs a container with the result `(hits, distance)` of its
`correct_to_known_list` query. -/
def runKnownLevel (max_distance : Nat) :
    KnownLevelState → List (SortingReadSetContainer × List (List FastaBase) × Nat) →
      Option KnownLevelState
  | st, [] => some st
  | st, (c, hits, dist) :: rest =>
    match sort_known_process max_distance st c hits dist with
    | none => none
    | some st' => runKnownLevel max_distance st' rest

/-- The value returned by `sort_known_level`:
`processed_reads - dropped_reads`. -/
def sortKnownLevelReturn (st : KnownLevelState) : Nat :=
  st.processed - st.droppedReads

/-! ## Claim C3: known-tag decision policy -/

/-- C3: in the known-tag sort stage, a container whose query returns 0 hits
is dropped; 2 or more hits drop it and count a collision; a minimum distance
above `max_distance` drops it; otherwise (exactly one hit within
`max_distance`) the pair (symbol, canonical hit) is pushed onto
`ordered_sorting_keys` and the container is forwarded to the output store. -/
theorem c3_known_tag_policy :
    ∀ (max_distance : Nat) (st : KnownLevelState) (c : SortingReadSetContainer)
      (nk : Char × List FastaBase) (rest : List (Char × List FastaBase))
      (hits : List (List FastaBase)) (distance : Nat),
      c.ordered_unsorted_keys = nk :: rest →
      ((hits.length = 0 →
          sort_known_process max_distance st c hits distance =
            some { st with processed := st.processed + 1,
                           droppedReads := st.droppedReads + 1 }) ∧
       (2 ≤ hits.length →
          sort_known_process max_distance st c hits distance =
            some { st with processed := st.processed + 1,
                           droppedReads := st.droppedReads + 1,
                           collidedReads := st.collidedReads + 1 }) ∧
       (∀ h, hits = [h] → max_distance < distance →
          sort_known_process max_distance st c hits distance =
            some { st with processed := st.processed + 1,
                           droppedReads := st.droppedReads + 1 }) ∧
       (∀ h, hits = [h] → distance ≤ max_distance →
          sort_known_process max_distance st c hits distance =
            some { st with processed := st.processed + 1,
                           sentReads := st.sentReads + 1,
                           output := st.output ++
                             [{ c with
                                ordered_sorting_keys :=
                                  c.ordered_sorting_keys ++ [(nk.1, h)],
                                ordered_unsorted_keys := rest }] })) := by
  intro max_distance st c nk rest hits distance hkeys
  refine ⟨?_, ?_, ?_, ?_⟩
  · intro h0
    have : hits = [] := List.length_eq_zero.mp h0
    subst this
    simp [sort_known_process, sort_known_step, hkeys]
  · intro h2
    cases hits with
    | nil => simp at h2
    | cons a as =>
      have hpos : 0 < as.length := by
        simp only [List.length_cons] at h2
        omega
      simp [sort_known_process, sort_known_step, hkeys, hpos]
  · intro h hh hd
    subst hh
    simp [sort_known_process, sort_known_step, hkeys, hd, Nat.not_le.mpr hd]
  · intro h hh hd
    subst hh
    simp [sort_known_process, sort_known_step, hkeys, Nat.not_lt.mpr hd]

/-- C3 witness: a container with one pending key and a single hit at distance
1 ≤ max_distance 2 is canonicalized and forwarded. -/
theorem c3_known_tag_policy_witness :
    sort_known_process 2 ⟨0, 0, 0, 0, []⟩
        ⟨[], [(Char.ofNat 120, [FASTA_A])], ⟨[], [], "", ""⟩⟩ [[FASTA_C]] 1 =
      some ⟨1, 0, 0, 1,
        [⟨[(Char.ofNat 120, [FASTA_C])], [], ⟨[], [], "", ""⟩⟩]⟩ := by
  have h := (c3_known_tag_policy 2 ⟨0, 0, 0, 0, []⟩
    ⟨[], [(Char.ofNat 120, [FASTA_A])], ⟨[], [], "", ""⟩⟩
    (Char.ofNat 120, [FASTA_A]) [] [[FASTA_C]] 1 rfl).2.2.2 [FASTA_C] rfl (by norm_num)
  exact h

/-! ## `sort_degenerate_level` and `DegenerateBuffer` -/

/-- Modelled from the spec: `DegenerateBuffer`
(`src/rust_cmd/src/umis/degenerate_tags.rs`) is not among the provided
sources.  Per spec section 4.6 it buffers the containers of one bin. -/
structure DegenerateBuffer where
  buffer : List SortingReadSetContainer
deriving DecidableEq, Repr

/-- `DegenerateBuffer::push`. -/
def DegenerateBuffer.push (b : DegenerateBuffer) (c : SortingReadSetContainer) :
    DegenerateBuffer :=
  ⟨b.buffer ++ [c]⟩

/-- Modelled from the spec: `DegenerateBuffer::close_and_write_to_shard_writer`
(absent degenerate_tags.rs).  Per spec section 4.6, every container of the
bin has its current tag value replaced by the consensus of its cluster,
(symbol, canonical) is appended onto `ordered_sorting_keys`, and the
container is forwarded to the next level; the buffer is emptied and the
number of written containers is returned.  The clustering-and-consensus
choice is abstracted as the `canon` function. -/
def DegenerateBuffer.close_and_write (canon : SortingReadSetContainer → List FastaBase)
    (symbol : Char) (b : DegenerateBuffer) :
    Nat × List SortingReadSetContainer × DegenerateBuffer :=
  (b.buffer.length,
   b.buffer.map (fun c =>
     { c with
       ordered_sorting_keys := c.ordered_sorting_keys ++ [(symbol, canon c)],
       ordered_unsorted_keys := c.ordered_unsorted_keys.tail }),
   ⟨[]⟩)

/-- Loop state of `sort_degenerate_level` (collapse.rs lines 438-505). -/
structure DegenLevelState where
  allReadCount : Nat
  outputReads : Nat
  output : List SortingReadSetContainer
  lastRead : Option SortingReadSetContainer
  bin : Option DegenerateBuffer
deriving DecidableEq, Repr

/-- The `reader.iter_range(..).for_each` loop of `sort_degenerate_level`:
start a bin on the first read; while the current read compares equal to the
previous one, push into the bin; on a boundary, close-and-write the bin and
push the current read into the emptied buffer.  `none` models the
`last_read.as_ref().unwrap()` panic. -/
def degenLoop (canon : SortingReadSetContainer → List FastaBase) (symbol : Char)
    (readsEqual : SortingReadSetContainer → SortingReadSetContainer → Bool) :
    DegenLevelState → List SortingReadSetContainer → Option DegenLevelState
  | st, [] => some st
  | st, r :: rest =>
    match st.bin with
    | none =>
      degenLoop canon symbol readsEqual
        { st with
          allReadCount := st.allReadCount + 1,
          lastRead := some r,
          bin := some (DegenerateBuffer.push ⟨[]⟩ r) } rest
    | some b =>
      match st.lastRead with
      | none => none
      | some lr =>
        if readsEqual lr r then
          degenLoop canon symbol readsEqual
            { st with
              allReadCount := st.allReadCount + 1,
              lastRead := some r,
              bin := some (b.push r) } rest
        else
          let cw := b.close_and_write canon symbol
          degenLoop canon symbol readsEqual
            { allReadCount := st.allReadCount + 1,
              outputReads := st.outputReads + cw.1,
              output := st.output ++ cw.2.1,
              lastRead := some r,
              bin := some (cw.2.2.push r) } rest

/-- `sort_degenerate_level`: run the loop from the empty state, close the
final bin if present, and report `(all_read_count, output_reads, output)`. -/
def sort_degenerate_level_run (canon : SortingReadSetContainer → List FastaBase)
    (symbol : Char)
    (readsEqual : SortingReadSetContainer → SortingReadSetContainer → Bool)
    (reads : List SortingReadSetContainer) :
    Option (Nat × Nat × List SortingReadSetContainer) :=
  match degenLoop canon symbol readsEqual ⟨0, 0, [], none, none⟩ reads with
  | none => none
  | some st =>
    match st.bin with
    | none => some (st.allReadCount, st.outputReads, st.output)
    | some b =>
      let cw := b.close_and_write canon symbol
      some (st.allReadCount, st.outputReads + cw.1, st.output ++ cw.2.1)

/-- Size of the pending bin, zero when absent. -/
def binSize (st : DegenLevelState) : Nat :=
  match st.bin with
  | none => 0
  | some b => b.buffer.length

theorem degenLoop_invariant (canon : SortingReadSetContainer → List FastaBase)
    (symbol : Char)
    (readsEqual : SortingReadSetContainer → SortingReadSetContainer → Bool)
    (reads : List SortingReadSetContainer) :
    ∀ st st', st.outputReads + binSize st = st.allReadCount →
      degenLoop canon symbol readsEqual st reads = some st' →
      st'.outputReads + binSize st' = st'.allReadCount := by
  induction reads with
  | nil =>
    intro st st' hinv hrun
    simp only [degenLoop] at hrun
    cases hrun
    exact hinv
  | cons r rest ih =>
    intro st st' hinv hrun
    simp only [degenLoop] at hrun
    cases hb : st.bin with
    | none =>
      simp only [hb] at hrun
      refine ih _ _ ?_ hrun
      simp [binSize, DegenerateBuffer.push]
      have : binSize st = 0 := by simp [binSize, hb]
      omega
    | some b =>
      simp only [hb] at hrun
      cases hlr : st.lastRead with
      | none => simp only [hlr] at hrun; cases hrun
      | some lr =>
        simp only [hlr] at hrun
        by_cases he : readsEqual lr r = true
        · rw [if_pos he] at hrun
          refine ih _ _ ?_ hrun
          have : binSize st = b.buffer.length := by simp [binSize, hb]
          simp [binSize, DegenerateBuffer.push]
          omega
        · rw [if_neg he] at hrun
          refine ih _ _ ?_ hrun
          have : binSize st = b.buffer.length := by simp [binSize, hb]
          simp [binSize, DegenerateBuffer.push, DegenerateBuffer.close_and_write]
          omega

/-! ## Claim C8: sort stages are monotonic in container count -/

/-- C8: every sort stage accepts at most as many containers as it reads:
`sort_known_level` returns `processed_reads - dropped_reads` (which equals
the number of containers it forwarded and is ≤ the number processed), and
`sort_degenerate_level` returns an `output_reads` count that is no greater
than `all_read_count`. -/
theorem c8_sort_stages_monotonic :
    (∀ (max_distance : Nat)
       (inputs : List (SortingReadSetContainer × List (List FastaBase) × Nat))
       (st : KnownLevelState),
       runKnownLevel max_distance ⟨0, 0, 0, 0, []⟩ inputs = some st →
       sortKnownLevelReturn st = st.output.length ∧
       sortKnownLevelReturn st ≤ st.processed) ∧
    (∀ (canon : SortingReadSetContainer → List FastaBase) (symbol : Char)
       (readsEqual : SortingReadSetContainer → SortingReadSetContainer → Bool)
       (reads : List SortingReadSetContainer)
       (allReadCount outputReads : Nat) (output : List SortingReadSetContainer),
       sort_degenerate_level_run canon symbol readsEqual reads =
         some (allReadCount, outputReads, output) →
       outputReads ≤ allReadCount) := by
  constructor
  · have key : ∀ (max_distance : Nat)
        (inputs : List (SortingReadSetContainer × List (List FastaBase) × Nat))
        (st0 st : KnownLevelState),
        st0.droppedReads + st0.output.length = st0.processed →
        runKnownLevel max_distance st0 inputs = some st →
        st.droppedReads + st.output.length = st.processed := by
      intro max_distance inputs
      induction inputs with
      | nil =>
        intro st0 st hinv hrun
        simp only [runKnownLevel] at hrun
        cases hrun
        exact hinv
      | cons x rest ih =>
        intro st0 st hinv hrun
        obtain ⟨c, hits, dist⟩ := x
        simp only [runKnownLevel] at hrun
        cases hproc : sort_known_process max_distance st0 c hits dist with
        | none => rw [hproc] at hrun; cases hrun
        | some st1 =>
          rw [hproc] at hrun
          refine ih st1 st ?_ hrun
          simp only [sort_known_process] at hproc
          cases hstep : sort_known_step max_distance c hits dist with
          | none => rw [hstep] at hproc; cases hproc
          | some outcome =>
            rw [hstep] at hproc
            cases outcome with
            | dropped => cases hproc; simp; omega
            | collidedDropped => cases hproc; simp; omega
            | sent c' => cases hproc; simp; omega
    intro max_distance inputs st hrun
    have hinv := key max_distance inputs ⟨0, 0, 0, 0, []⟩ st (by simp) hrun
    unfold sortKnownLevelReturn
    omega
  · intro canon symbol readsEqual reads allReadCount outputReads output hrun
    simp only [sort_degenerate_level_run] at hrun
    cases hloop : degenLoop canon symbol readsEqual ⟨0, 0, [], none, none⟩ reads with
    | none => rw [hloop] at hrun; cases hrun
    | some st =>
      rw [hloop] at hrun
      have hinv := degenLoop_invariant canon symbol readsEqual reads
        ⟨0, 0, [], none, none⟩ st (by simp [binSize]) hloop
      cases hb : st.bin with
      | none =>
        simp only [hb] at hrun
        cases hrun
        have : binSize st = 0 := by simp [binSize, hb]
        omega
      | some b =>
        simp only [hb, DegenerateBuffer.close_and_write] at hrun
        cases hrun
        have : binSize st = b.buffer.length := by simp [binSize, hb]
        omega

/-- C8 witness: both stages on empty input accept zero of zero containers. -/
theorem c8_sort_stages_monotonic_witness :
    (sortKnownLevelReturn ⟨0, 0, 0, 0, []⟩ = ([] : List SortingReadSetContainer).length ∧
     sortKnownLevelReturn ⟨0, 0, 0, 0, []⟩ ≤ 0) ∧
    (0 : Nat) ≤ 0 := by
  refine ⟨?_, ?_⟩
  · exact c8_sort_stages_monotonic.1 0 [] ⟨0, 0, 0, 0, []⟩ rfl
  · exact c8_sort_stages_monotonic.2 (fun _ => []) (Char.ofNat 120) (fun _ _ => true)
      [] 0 0 [] rfl

/-! ## Consensus builder
(`src/rust_cmd/src/consensus/consensus_builders.rs`, lines 56-93) -/

/-- A record emitted by `output_buffered_read_set_to_sam_file`: the written
container, the `rc` and `dc` auxiliary tag values, and whether the POA +
re-alignment path produced the alignment. -/
structure EmittedRecord where
  container : SortingReadSetContainer
  rcTag : Nat
  dcTag : Nat
  usedPoa : Bool
deriving DecidableEq, Repr

/-- `output_buffered_read_set_to_sam_file`: tags `rc` (raw bin size) and `dc`
(`min(maximum_reads_before_downsampling, bin size)`) are inserted up front;
a bin with more than one read goes through POA consensus plus re-alignment
(abstracted as `poaRealign`) and the first container is written with the new
alignment; otherwise the single container is written as is.  `none` models
the `.get(0).unwrap()` panic on an empty bin. -/
def output_buffered_read_set (poaRealign : List SortingReadSetContainer → SortedAlignment)
    (maximum_reads_before_downsampling : Nat)
    (buffered_reads : List SortingReadSetContainer) : Option EmittedRecord :=
  let rc := buffered_reads.length
  let dc := min maximum_reads_before_downsampling buffered_reads.length
  if buffered_reads.length > 1 then
    match buffered_reads with
    | c0 :: _ =>
      some { container := { c0 with aligned_read := poaRealign buffered_reads },
             rcTag := rc, dcTag := dc, usedPoa := true }
    | [] => none
  else
    match buffered_reads with
    | c0 :: _ => some { container := c0, rcTag := rc, dcTag := dc, usedPoa := false }
    | [] => none

/-! ## Claim C9: singleton bins bypass POA; rc/dc tag values -/

/-- C9: a bin with exactly one container bypasses partial-order alignment and
re-alignment and its existing alignment is emitted directly; and every
emitted record has `rc` equal to the raw bin size and `dc` equal to the
minimum of the downsample cap and the bin size. -/
theorem c9_consensus_singleton_and_tags :
    ∀ (poaRealign : List SortingReadSetContainer → SortedAlignment)
      (cap : Nat) (bin : List SortingReadSetContainer),
      (∀ c, bin = [c] →
        output_buffered_read_set poaRealign cap bin =
          some { container := c, rcTag := 1, dcTag := min cap 1, usedPoa := false }) ∧
      (∀ r, output_buffered_read_set poaRealign cap bin = some r →
        r.rcTag = bin.length ∧ r.dcTag = min cap bin.length) := by
  intro poaRealign cap bin
  constructor
  · intro c hbin
    subst hbin
    simp [output_buffered_read_set]
  · intro r hr
    simp only [output_buffered_read_set] at hr
    by_cases hlen : bin.length > 1
    · rw [if_pos hlen] at hr
      cases bin with
      | nil => cases hr
      | cons c0 cs => cases hr; exact ⟨rfl, rfl⟩
    · rw [if_neg hlen] at hr
      cases bin with
      | nil => cases hr
      | cons c0 cs => cases hr; exact ⟨rfl, rfl⟩

/-- C9 witness: a singleton bin is emitted directly with rc = 1 and
dc = min 40 1 = 1. -/
theorem c9_consensus_singleton_and_tags_witness :
    output_buffered_read_set (fun _ => ⟨[], [], "", ""⟩) 40
        [⟨[], [], ⟨[FASTA_A], [FASTA_A], "r", "n"⟩⟩] =
      some { container := ⟨[], [], ⟨[FASTA_A], [FASTA_A], "r", "n"⟩⟩,
             rcTag := 1, dcTag := min 40 1, usedPoa := false } := by
  exact (c9_consensus_singleton_and_tags (fun _ => ⟨[], [], "", ""⟩) 40
    [⟨[], [], ⟨[FASTA_A], [FASTA_A], "r", "n"⟩⟩]).1
    ⟨[], [], ⟨[FASTA_A], [FASTA_A], "r", "n"⟩⟩ rfl

end Cabal
